import Mathlib

/-!
Verification of the document-translation core (PPTX translator backend).

Python strings are modelled as lists of Unicode code points (`PyStr`),
mirroring Python's view of a `str` as a sequence of code points.  Pure
functions of the source are translated into computable Lean definitions;
the network backends (Azure translator, OpenRouter LLM) are modelled as
oracles passed in as arguments, with a raised exception modelled as
`Except.error`.
-/

namespace DocTrans

/-- Python `str` as a list of Unicode code points. -/
abbrev PyStr := List Nat

/-- Code points of a Lean string literal, used to write Python string
literals in the embedding. -/
def codes (s : String) : PyStr := s.data.map Char.toNat

/-- Python `str.lower()` on one code point (ASCII range, which is all the
source ever feeds it). -/
def lowerCode (c : Nat) : Nat := if 65 ≤ c ∧ c ≤ 90 then c + 32 else c

/-- Python `str.lower()`. -/
def pyLower (s : PyStr) : PyStr := s.map lowerCode

/-- Python whitespace for `str.strip()`: space, tab, newline, carriage
return, vertical tab, form feed. -/
def isPySpace (c : Nat) : Bool :=
  c == 32 || c == 9 || c == 10 || c == 13 || c == 11 || c == 12

/-- Python `str.strip()`: drop leading and trailing whitespace. -/
def pyStrip (s : PyStr) : PyStr :=
  ((s.dropWhile isPySpace).reverse.dropWhile isPySpace).reverse

/-- `if sep in lang: lang = lang.split(sep)[0]` — keep the part before the
first occurrence of `sep` when present (translation_processor.py lines
215-220). -/
def cut_at (sep : Nat) (lang : PyStr) : PyStr :=
  if sep ∈ lang then lang.takeWhile (fun c => c ≠ sep) else lang

/-- The legacy-alias map `lang_map.get(lang, lang)`
(translation_processor.py lines 223-229). -/
def lang_map (lang : PyStr) : PyStr :=
  if lang = codes "in" then codes "id"
  else if lang = codes "iw" then codes "he"
  else if lang = codes "ji" then codes "yi"
  else lang

/-- `TranslationProcessor._normalize_language_code`
(src/backend/app/services/translation_processor.py, lines 198-229):
empty string maps to itself; otherwise lowercase and strip, cut at the
first `-`, then at the first `_`, then map the legacy aliases
in→id, iw→he, ji→yi. -/
def normalize_language_code (lang_code : PyStr) : PyStr :=
  if lang_code = [] then []
  else lang_map (cut_at 95 (cut_at 45 (pyStrip (pyLower lang_code))))

/-!
## Translation processor (`TranslationProcessor.translate_text`)

The two backends are oracles indexed by the attempt number (the Azure
translator is called exactly once per retry attempt, the LLM at most
once per attempt); a Python exception raised by a backend is
`Except.error` carrying the exception message.
-/

/-- Result dictionary of `AzureTranslator.translate_text`: either both
keys are present or the dictionary is empty (`{}`), so each key is an
`Option`. -/
structure AzureResult where
  translated_text : Option PyStr := none
  detected_language : Option PyStr := none
deriving DecidableEq

/-- Result dictionary of `OpenRouterService.translate_with_context`,
restricted to the keys `translate_text` reads. -/
structure LlmResult where
  success : Bool
  translation : PyStr
deriving DecidableEq

/-- Result dictionary of `TranslationProcessor.translate_text`.  Missing
dictionary keys are the default values (`none` / `false`). -/
structure TransResult where
  success : Bool
  translation : PyStr
  error : Option PyStr := none
  source_language : Option PyStr := none
  target_language : Option PyStr := none
  method : Option PyStr := none
  skipped : Bool := false
  azure_translation : Option PyStr := none
deriving DecidableEq

/-- The dictionary returned from the `method: azure` branch
(translation_processor.py lines 101-108). -/
def azureReturn (azure_result : AzureResult) (target_language : PyStr) : TransResult :=
  { success := true
    translation := azure_result.translated_text.getD []
    source_language := azure_result.detected_language
    target_language := some target_language
    method := some (codes "azure") }

/-- `azure_result.get('detected_language', source_language)`
(translation_processor.py line 69). -/
def detected_of (azure_result : AzureResult) (source_language : Option PyStr) :
    Option PyStr :=
  match azure_result.detected_language with
  | some d => some d
  | none => source_language

/-- The skip test `detected_lang and normalize(detected) == normalize(target)`
(translation_processor.py line 70); a `None` or empty detected language is
falsy in Python. -/
def skip_check (azure_result : AzureResult) (source_language : Option PyStr)
    (target_language : PyStr) : Bool :=
  match detected_of azure_result source_language with
  | some d =>
    d ≠ [] && normalize_language_code d == normalize_language_code target_language
  | none => false

/-- One `try:` body of the retry loop (translation_processor.py lines
64-108), given this attempt's backend outcomes.  Returns the outcome
(an uncaught exception or a result dictionary) together with whether the
LLM backend was invoked during the attempt. -/
def tryAttempt (az : Except PyStr AzureResult) (llm : Except PyStr LlmResult)
    (use_llm_enhancement has_openrouter force_llm : Bool)
    (text target_language : PyStr) (source_language : Option PyStr) :
    Except PyStr TransResult × Bool :=
  match az with
  | .error e => (.error e, false)
  | .ok azure_result =>
    let detected_lang : Option PyStr := detected_of azure_result source_language
    if skip_check azure_result source_language target_language then
      (.ok { success := true
             translation := text
             source_language := detected_lang
             target_language := some target_language
             method := some (codes "skipped")
             skipped := true }, false)
    else if (use_llm_enhancement || force_llm) && has_openrouter then
      match llm with
      | .error e => (.error e, true)
      | .ok llm_result =>
        if llm_result.success then
          (.ok { success := true
                 translation := llm_result.translation
                 source_language := detected_lang
                 target_language := some target_language
                 method := some (codes "llm")
                 azure_translation := azure_result.translated_text }, true)
        else
          (.ok (azureReturn azure_result target_language), true)
    else
      (.ok (azureReturn azure_result target_language), false)

/-- Trace of one `translate_text` call: the returned dictionary (`none`
would mean the loop fell through, which never happens), the number of
Azure calls, the number of LLM calls and the list of back-off sleeps. -/
structure TranslateTrace where
  result : Option TransResult
  azure_calls : Nat
  llm_calls : Nat
  sleeps : List Nat
deriving DecidableEq

/-- `retry_delay` (translation_processor.py line 61). -/
def retry_delay : Nat := 1

/-- The retry loop `for attempt in range(max_retries)` (translation_processor.py
lines 63-128).  `remaining` counts the attempts still available
(`max_retries - attempt`); an exception on a non-final attempt sleeps
`retry_delay * 2 ^ attempt` and retries, on the final attempt it yields
the `method: failed` dictionary. -/
def translate_attempts (az : Nat → Except PyStr AzureResult)
    (llm : Nat → Except PyStr LlmResult)
    (use_llm_enhancement has_openrouter force_llm : Bool)
    (text target_language : PyStr) (source_language : Option PyStr) :
    Nat → Nat → TranslateTrace
  | _, 0 => ⟨none, 0, 0, []⟩
  | attempt, remaining + 1 =>
    let step := tryAttempt (az attempt) (llm attempt)
      use_llm_enhancement has_openrouter force_llm text target_language source_language
    let lc : Nat := if step.2 then 1 else 0
    match step.1 with
    | .ok r => ⟨some r, 1, lc, []⟩
    | .error e =>
      if remaining = 0 then
        ⟨some { success := false
                error := some e
                translation := text
                source_language := source_language
                target_language := some target_language
                method := some (codes "failed") }, 1, lc, []⟩
      else
        let rest := translate_attempts az llm use_llm_enhancement has_openrouter
          force_llm text target_language source_language (attempt + 1) remaining
        ⟨rest.result, 1 + rest.azure_calls, lc + rest.llm_calls,
          (retry_delay * 2 ^ attempt) :: rest.sleeps⟩

/-- `TranslationProcessor.translate_text` (translation_processor.py lines
29-128): blank input short-circuits with `success=false`, otherwise up
to `max_retries = 3` attempts. -/
def translate_text (az : Nat → Except PyStr AzureResult)
    (llm : Nat → Except PyStr LlmResult)
    (use_llm_enhancement has_openrouter force_llm : Bool)
    (text target_language : PyStr) (source_language : Option PyStr) :
    TranslateTrace :=
  if text = [] ∨ pyStrip text = [] then
    ⟨some { success := false
            error := some (codes "Empty text provided")
            translation := [] }, 0, 0, []⟩
  else
    translate_attempts az llm use_llm_enhancement has_openrouter force_llm
      text target_language source_language 0 3

/-- An Azure oracle that always answers, detecting Spanish. -/
def azOk : Nat → Except PyStr AzureResult :=
  fun _ => .ok { translated_text := some (codes "hola"), detected_language := some (codes "es") }

/-- An Azure oracle that always raises. -/
def azFail : Nat → Except PyStr AzureResult := fun _ => .error (codes "boom")

/-- An Azure oracle that raises on the first two attempts and then answers,
detecting English. -/
def azFlaky : Nat → Except PyStr AzureResult := fun n =>
  if n < 2 then .error (codes "boom")
  else .ok { translated_text := some (codes "hola"), detected_language := some (codes "en") }

/-- An LLM oracle that always answers unsuccessfully. -/
def llmNone : Nat → Except PyStr LlmResult :=
  fun _ => .ok { success := false, translation := [] }

/-- The failed-translation dictionary produced after three raising attempts
on input `"a"`. -/
def c3wRes : TransResult :=
  { success := false
    error := some (codes "boom")
    translation := codes "a"
    source_language := none
    target_language := some (codes "en")
    method := some (codes "failed") }

/-!
## OCR parsing and the image overlay renderer (`ImageTranslator`)
-/

/-- One line of the Azure OCR read result: its `text`, its
`boundingBox` (8 coordinates of a 4-point polygon) and the optional
nested `appearance.style.confidence`. -/
structure OcrLine where
  text : PyStr
  boundingBox : List ℚ
  confidence : Option ℚ := none
deriving DecidableEq

/-- One page of `analyzeResult.readResults`. -/
structure OcrPage where
  lines : List OcrLine
deriving DecidableEq

/-- A parsed text block `{'text': ..., 'bbox': [x, y, w, h], 'confidence': ...}`. -/
structure TextBlock where
  text : PyStr
  bbox : List ℚ
  confidence : ℚ
deriving DecidableEq

/-- The CJK test of `_parse_ocr_result` (image_translator.py lines 156-160):
Han, Hiragana, Katakana or Hangul code-point ranges. -/
def is_cjk_code (c : Nat) : Bool :=
  (0x4e00 ≤ c && c ≤ 0x9fff) || (0x3040 ≤ c && c ≤ 0x309f) ||
  (0x30a0 ≤ c && c ≤ 0x30ff) || (0xac00 ≤ c && c ≤ 0xd7af)

/-- Python `min` of a four-element list. -/
def min4 (a b c d : ℚ) : ℚ := min (min (min a b) c) d

/-- Python `max` of a four-element list. -/
def max4 (a b c d : ℚ) : ℚ := max (max (max a b) c) d

/-- The per-line body of `ImageTranslator._parse_ocr_result`
(image_translator.py lines 145-180): strip the text, drop empty or
shorter-than-2-character lines, drop 1-character non-CJK lines (note the
previous guard already dropped every 1-character line), and turn the
4-point bounding polygon into `[left, top, width, height]`. -/
def parse_ocr_line (line : OcrLine) : Option TextBlock :=
  let text := pyStrip line.text
  let bbox := line.boundingBox
  if text = [] ∨ text.length < 2 then none
  else if text.length = 1 ∧ ¬(text.any is_cjk_code) then none
  else if text ≠ [] ∧ 8 ≤ bbox.length then
    let left := min4 (bbox.getD 0 0) (bbox.getD 2 0) (bbox.getD 4 0) (bbox.getD 6 0)
    let top := min4 (bbox.getD 1 0) (bbox.getD 3 0) (bbox.getD 5 0) (bbox.getD 7 0)
    let right := max4 (bbox.getD 0 0) (bbox.getD 2 0) (bbox.getD 4 0) (bbox.getD 6 0)
    let bottom := max4 (bbox.getD 1 0) (bbox.getD 3 0) (bbox.getD 5 0) (bbox.getD 7 0)
    some { text := text
           bbox := [left, top, right - left, bottom - top]
           confidence := line.confidence.getD 1 }
  else none

/-- `ImageTranslator._parse_ocr_result` over the pages of
`analyzeResult.readResults` (image_translator.py lines 127-183). -/
def parse_ocr_result (read_results : List OcrPage) : List TextBlock :=
  (read_results.map (fun page => page.lines.filterMap parse_ocr_line)).flatten

/-- The OCR line holding the single Han character `中` with a valid
4-point bounding box. -/
def c5_line : OcrLine := { text := codes "中", boundingBox := [0, 0, 10, 0, 10, 10, 0, 10] }

/-- Does one list start with the other (needle as prefix of haystack)? -/
def startsWithSeg : PyStr → PyStr → Bool
  | _, [] => true
  | [], _ :: _ => false
  | h :: t, n :: m => h == n && startsWithSeg t m

/-- Python substring containment `needle in hay`. -/
def hasSub : PyStr → PyStr → Bool
  | [], needle => needle.isEmpty
  | h :: t, needle => startsWithSeg (h :: t) needle || hasSub t needle

/-- The `error_indicators` list of refusal/apology phrase fragments
(image_translator.py lines 294-302); `39` is the apostrophe. -/
def error_indicators : List PyStr :=
  [codes "I don" ++ [39] ++ codes "t see any",
   codes "I don" ++ [39] ++ codes "t see",
   codes "Please share",
   codes "Please provide",
   codes "provided to translate",
   codes "following your instructions",
   codes "following your specified"]

/-- A block queued for drawing (`blocks_to_translate` entries,
image_translator.py lines 314-318). -/
structure DrawBlock where
  original : PyStr
  translated : PyStr
  bbox : List ℚ
deriving DecidableEq

/-- The per-block filter of `ImageTranslator.translate_image`
(image_translator.py lines 284-323): drop failed translations, skipped
blocks, translations containing a refusal fragment, and translations more
than 5 times longer than the original. -/
def filter_block (block : TextBlock) (translation_result : TransResult) :
    Option DrawBlock :=
  if translation_result.success then
    let translated_text := translation_result.translation
    if translation_result.skipped then none
    else if error_indicators.any (fun ind => hasSub translated_text ind) then none
    else if block.text.length * 5 < translated_text.length then none
    else some { original := block.text
                translated := translated_text
                bbox := block.bbox }
  else none

/-- The surviving blocks, in OCR-reported order. -/
def blocks_to_translate (blocks : List TextBlock) (results : List TransResult) :
    List DrawBlock :=
  (blocks.zip results).filterMap (fun p => filter_block p.1 p.2)

/-- The drawing decision of `ImageTranslator.translate_image`
(image_translator.py lines 216-331): `none` when OCR found no blocks or
every block was filtered out (caller keeps the original bytes), otherwise
the list of blocks that get drawn, given the translator's per-block
results. -/
def translate_image (blocks : List TextBlock) (results : List TransResult) :
    Option (List DrawBlock) :=
  if blocks = [] then none
  else if blocks_to_translate blocks results = [] then none
  else some (blocks_to_translate blocks results)

/-- A concrete OCR block for the C6 witness. -/
def c6_block : TextBlock := { text := codes "Hello", bbox := [0, 0, 20, 10], confidence := 1 }

/-- A concrete successful translation result for the C6 witness. -/
def c6_result : TransResult := { success := true, translation := codes "Hola" }

/-- The drawn block produced from `c6_block` and `c6_result`. -/
def c6_drawn : DrawBlock := { original := codes "Hello", translated := codes "Hola", bbox := [0, 0, 20, 10] }

/-- `DocumentProcessor._process_image` (document_processor.py lines
387-437): images under 5000 bytes are skipped before the Overlay Renderer
is consulted.  The second argument is the renderer's verdict for this
image (`none`: nothing to translate or an error); the returned pair is
(was the image replaced, number of renderer invocations). -/
def process_image (image_bytes : List Nat) (translated_image_bytes : Option (List Nat)) :
    Bool × Nat :=
  if image_bytes.length < 5000 then (false, 0)
  else
    match translated_image_bytes with
    | some _ => (true, 1)
    | none => (false, 1)

/-- The caller's counter update `if self._process_image(...):
stats['images_translated'] += 1` (document_processor.py lines 136-144). -/
def bump_images_translated (images_translated : Nat) (processed : Bool) : Nat :=
  if processed then images_translated + 1 else images_translated

/-!
## Color sampling and contrast (`ImageTranslator._sample_text_colors`,
`_calculate_contrast`)

Python floats are modelled as real numbers.
-/

/-- One channel of the WCAG-style relative luminance
(image_translator.py lines 562-566): `x/12.92` below the 0.03928 knee,
`((x+0.055)/1.055) ** 2.4` above it. -/
noncomputable def srgb_channel (v : Nat) : ℝ :=
  let c : ℝ := v / 255
  if c ≤ 0.03928 then c / 12.92 else ((c + 0.055) / 1.055) ^ (2.4 : ℝ)

/-- The relative luminance `0.2126*r + 0.7152*g + 0.0722*b`
(image_translator.py line 567). -/
noncomputable def luminance (rgb : Nat × Nat × Nat) : ℝ :=
  0.2126 * srgb_channel rgb.1 + 0.7152 * srgb_channel rgb.2.1 +
    0.0722 * srgb_channel rgb.2.2

/-- `ImageTranslator._calculate_contrast` (image_translator.py lines
550-576): `(lighter + 0.05) / (darker + 0.05)`. -/
noncomputable def calculate_contrast (color1 color2 : Nat × Nat × Nat) : ℝ :=
  let l1 := luminance color1
  let l2 := luminance color2
  let lighter := max l1 l2
  let darker := min l1 l2
  (lighter + 0.05) / (darker + 0.05)

open Classical in
/-- The text-color decision of `ImageTranslator._sample_text_colors`
(image_translator.py lines 446-507) given the modal background color and
the black/dark/white pixel counts of the region: black on light
backgrounds, white on dark ones, then the final contrast safety check
forcing the opposite pure color below ratio 1.5. -/
noncomputable def sample_text_color (bg_color : Nat × Nat × Nat)
    (black_count dark_count white_count : Nat) : Nat × Nat × Nat :=
  let bg_brightness : ℝ :=
    ((bg_color.1 + bg_color.2.1 + bg_color.2.2 : Nat) : ℝ) / 3
  let text_color : Nat × Nat × Nat :=
    if 128 < bg_brightness then
      if 0 < black_count then (0, 0, 0)
      else if 0 < dark_count then (0, 0, 0)
      else (0, 0, 0)
    else
      if 0 < white_count then (255, 255, 255)
      else (255, 255, 255)
  let contrast := calculate_contrast text_color bg_color
  if contrast < 1.5 then
    if 128 < bg_brightness then (0, 0, 0) else (255, 255, 255)
  else text_color

/-!
## Shape-tree walker ledger identifiers (`DocumentProcessor`)

The walker's ledger (`self.original_texts`) maps frame identifiers to the
stripped original text.  Only text frames create entries; pictures and
tables do not.  We model the identifier assignment and the insertion
order; a Python dict keyed by these identifiers has this list's key set.
-/

/-- Decimal digits of `n`, fuel-driven so the recursion is structural;
`natToStr` supplies sufficient fuel. -/
def natToStrGo : Nat → Nat → PyStr
  | 0, _ => []
  | fuel + 1, n => if n < 10 then [48 + n] else natToStrGo fuel (n / 10) ++ [48 + n % 10]

/-- Python `str(n)` for a natural number: decimal digit code points. -/
def natToStr (n : Nat) : PyStr := natToStrGo (n + 1) n

/-- The decimal value of a digit string (left fold), inverse of `natToStr`. -/
def digitsVal (s : PyStr) : Nat := s.foldl (fun a c => a * 10 + (c - 48)) 0

/-- A slide shape: text frame, picture, table or group of shapes
(the four capability cases the walker dispatches on). -/
inductive PShape where
  | textFrame (text : PyStr)
  | picture (blob : List Nat)
  | table (cells : List PyStr)
  | group (shapes : List PShape)

/-- Is the shape a group? -/
def isGroupShape : PShape → Bool
  | .group _ => true
  | _ => false

/-- A shape is flat when it is not a group containing nested groups. -/
def flatShape : PShape → Bool
  | .group g => g.all fun s => !isGroupShape s
  | _ => true

/-- `frame_id = f'slide_{slide_idx}_shape_{shape_idx}'`
(document_processor.py line 309); inside groups `shape_idx` is the string
`f'{parent_shape_idx}_group_{nested_idx}'` (line 263). -/
def frame_id (slide_idx : Nat) (shape_idx : PyStr) : PyStr :=
  codes "slide_" ++ natToStr slide_idx ++ codes "_shape_" ++ shape_idx

/-- Ledger effect of `_process_text_frame` (document_processor.py lines
301-312): nothing when the stripped text is empty, otherwise one entry
mapping `frame_id` to the stripped original text. -/
def textFrameEntry (slide_idx : Nat) (shape_idx : PyStr) (text : PyStr) :
    List (PyStr × PyStr) :=
  let original_text := pyStrip text
  if original_text = [] then []
  else [(frame_id slide_idx shape_idx, original_text)]

/-- Ledger effect of `_process_group_shape` (document_processor.py lines
195-276) over the enumerated nested shapes: nested text frames use
`f'{parent_shape_idx}_group_{nested_idx}'` as their shape index; nested
groups recurse with `parent_shape_idx` UNCHANGED (line 226); pictures and
tables add no ledger entries. -/
def groupLedger (slide_idx : Nat) (parent_shape_idx : PyStr) :
    List PShape → Nat → List (PyStr × PyStr)
  | [], _ => []
  | s :: rest, nested_idx =>
    (match s with
     | .group g => groupLedger slide_idx parent_shape_idx g 0
     | .textFrame t =>
       textFrameEntry slide_idx
         (parent_shape_idx ++ codes "_group_" ++ natToStr nested_idx) t
     | .picture _ => []
     | .table _ => []) ++
      groupLedger slide_idx parent_shape_idx rest (nested_idx + 1)

/-- Ledger effect of the top-level per-slide shape dispatch
(document_processor.py lines 103-173): groups recurse with the group's own
index as parent, text frames record under `str(shape_idx)`, pictures and
tables add nothing. -/
def slideLedger (slide_idx : Nat) : List PShape → Nat → List (PyStr × PyStr)
  | [], _ => []
  | s :: rest, shape_idx =>
    (match s with
     | .group g => groupLedger slide_idx (natToStr shape_idx) g 0
     | .textFrame t => textFrameEntry slide_idx (natToStr shape_idx) t
     | .picture _ => []
     | .table _ => []) ++ slideLedger slide_idx rest (shape_idx + 1)

/-- Ledger accumulation of `process_pptx` over the enumerated slides
(document_processor.py lines 93-175). -/
def docLedgerGo : List (List PShape) → Nat → List (PyStr × PyStr)
  | [], _ => []
  | sl :: rest, slide_idx =>
    slideLedger slide_idx sl 0 ++ docLedgerGo rest (slide_idx + 1)

/-- The whole-document ledger of one run. -/
def docLedger (slides : List (List PShape)) : List (PyStr × PyStr) :=
  docLedgerGo slides 0

/-- The ledger key sequence (`original_texts` keys in insertion order). -/
def ledgerKeys (slides : List (List PShape)) : List PyStr :=
  (docLedger slides).map Prod.fst

/-- Identifier of a top-level text frame: `slide_<i>_shape_<j>`. -/
def K_top (i j : Nat) : PyStr := frame_id i (natToStr j)

/-- Identifier of a text frame inside a group:
`slide_<i>_shape_<j>_group_<k>`. -/
def K_grp (i j k : Nat) : PyStr :=
  frame_id i (natToStr j ++ codes "_group_" ++ natToStr k)

/-- A key belongs to slide `i`, shape index `j`: it is the top-level form
or a group-suffixed form. -/
def keyOf (i j : Nat) (key : PyStr) : Prop :=
  key = K_top i j ∨ ∃ k, key = K_grp i j k

/-- The counterexample document: one slide whose only shape is a group
holding a text frame and a nested group holding another text frame. -/
def c1_doc : List (List PShape) :=
  [[.group [.textFrame (codes "a"), .group [.textFrame (codes "b")]]]]

/-- A flat witness document: two slides, groups without nested groups. -/
def c1_flat_doc : List (List PShape) :=
  [[.textFrame (codes "Hello"), .group [.textFrame (codes "World"), .picture [1]]],
   [.textFrame (codes "Hi")]]

/-- A result dictionary produced by `tryAttempt` always has `success = True`. -/
theorem tryAttempt_ok_success (az : Except PyStr AzureResult)
    (llm : Except PyStr LlmResult) (ue ho fl : Bool) (text target : PyStr)
    (source : Option PyStr) (r : TransResult) (b : Bool)
    (h : tryAttempt az llm ue ho fl text target source = (.ok r, b)) :
    r.success = true := by
  have hf := congrArg Prod.fst h
  clear h
  cases az with
  | error e => simp [tryAttempt] at hf
  | ok ares =>
    simp only [tryAttempt] at hf
    split at hf
    · injection hf with hr
      rw [← hr]
    · split at hf
      · split at hf
        · simp at hf
        · split at hf
          · injection hf with hr
            rw [← hr]
          · injection hf with hr
            rw [← hr]
            rfl
      · injection hf with hr
        rw [← hr]
        rfl

/-- Inside the retry loop, a returned dictionary with `success = False` always
carries the original text as its translation. -/
theorem translate_attempts_failsafe (az : Nat → Except PyStr AzureResult)
    (llm : Nat → Except PyStr LlmResult) (ue ho fl : Bool)
    (text target : PyStr) (source : Option PyStr) :
    ∀ remaining attempt r,
      (translate_attempts az llm ue ho fl text target source attempt remaining).result
          = some r →
        r.success = false → r.translation = text := by
  intro remaining
  induction remaining with
  | zero => intro attempt r h; simp [translate_attempts] at h
  | succ n ih =>
    intro attempt r h hfail
    simp only [translate_attempts] at h
    split at h
    · next v hstep =>
      simp only [Option.some.injEq] at h
      have hv : v.success = true := by
        apply tryAttempt_ok_success (az attempt) (llm attempt) ue ho fl text target source
          v (tryAttempt (az attempt) (llm attempt) ue ho fl text target source).2
        exact Prod.ext hstep rfl
      rw [← h] at hfail
      rw [hfail] at hv
      exact absurd hv (by simp)
    · split at h
      · simp only [Option.some.injEq] at h
        rw [← h]
      · exact ih (attempt + 1) r h hfail

/-- C9: for every empty or whitespace-only input text, `translate_text`
returns a `success=false` result without invoking the Azure backend or the
LLM backend (zero backend calls, no exception). -/
theorem translate_text_blank_no_backend (az : Nat → Except PyStr AzureResult)
    (llm : Nat → Except PyStr LlmResult) (ue ho fl : Bool)
    (text target : PyStr) (source : Option PyStr)
    (h : text = [] ∨ pyStrip text = []) :
    translate_text az llm ue ho fl text target source =
      ⟨some { success := false
              error := some (codes "Empty text provided")
              translation := [] }, 0, 0, []⟩ := by
  unfold translate_text
  rw [if_pos h]

/-- Witness for C9 at the whitespace-only text `"  "`. -/
theorem translate_text_blank_no_backend_witness :
    ((codes "  " : PyStr) = [] ∨ pyStrip (codes "  ") = []) ∧
    translate_text azOk llmNone false false false (codes "  ") (codes "en") none =
      ⟨some { success := false
              error := some (codes "Empty text provided")
              translation := [] }, 0, 0, []⟩ :=
  ⟨Or.inr (by decide),
   translate_text_blank_no_backend azOk llmNone false false false (codes "  ")
     (codes "en") none (Or.inr (by decide))⟩

/-- C2: for a non-blank text, if the first Azure call answers and the
detected (or declared) source language is non-empty and normalizes to the
normalized target language, `translate_text` returns `success=true`,
`method='skipped'` and the original text verbatim, after exactly one
backend call. -/
theorem translate_text_skip_rule (az : Nat → Except PyStr AzureResult)
    (llm : Nat → Except PyStr LlmResult) (ue ho fl : Bool)
    (text target : PyStr) (source : Option PyStr)
    (ares : AzureResult) (d : PyStr)
    (hblank : pyStrip text ≠ [])
    (haz : az 0 = .ok ares)
    (hdet : detected_of ares source = some d)
    (hd : d ≠ [])
    (hnorm : normalize_language_code d = normalize_language_code target) :
    translate_text az llm ue ho fl text target source =
      ⟨some { success := true
              translation := text
              source_language := some d
              target_language := some target
              method := some (codes "skipped")
              skipped := true }, 1, 0, []⟩ := by
  have htext : ¬(text = [] ∨ pyStrip text = []) := by
    rintro (h | h)
    · exact hblank (by rw [h]; rfl)
    · exact hblank h
  have hskip : skip_check ares source target = true := by
    unfold skip_check
    rw [hdet]
    simp [hd, hnorm]
  unfold translate_text
  rw [if_neg htext]
  simp only [translate_attempts, tryAttempt, haz, hskip, hdet]
  rfl

/-- Witness for C2: Azure detects `es` while the target is `es`. -/
theorem translate_text_skip_rule_witness :
    pyStrip (codes "hola") ≠ [] ∧
    azOk 0 = .ok { translated_text := some (codes "hola"),
                   detected_language := some (codes "es") } ∧
    detected_of { translated_text := some (codes "hola"),
                  detected_language := some (codes "es") } none = some (codes "es") ∧
    (codes "es" : PyStr) ≠ [] ∧
    normalize_language_code (codes "es") = normalize_language_code (codes "es") ∧
    translate_text azOk llmNone false false false (codes "hola") (codes "es") none =
      ⟨some { success := true
              translation := codes "hola"
              source_language := some (codes "es")
              target_language := some (codes "es")
              method := some (codes "skipped")
              skipped := true }, 1, 0, []⟩ :=
  ⟨by decide, rfl, rfl, by decide, rfl,
   translate_text_skip_rule azOk llmNone false false false (codes "hola") (codes "es")
     none { translated_text := some (codes "hola"), detected_language := some (codes "es") }
     (codes "es") (by decide) rfl rfl (by decide) rfl⟩

/-- C3 counterexample: on the whitespace-only input `" "` the returned
result has `success=false` but its translation is the empty string, not the
original text, refuting the claim as stated for all inputs. -/
theorem translate_text_failsafe_counterexample :
    (translate_text azOk llmNone false false false (codes " ") (codes "en") none).result =
      some { success := false
             error := some (codes "Empty text provided")
             translation := [] } ∧
    ([] : PyStr) ≠ codes " " := by
  constructor
  · rfl
  · decide

/-- C3 (amended): for every input whose text is not blank, a returned
result with `success=false` carries the original input text as its
translation, which in particular is non-empty. -/
theorem translate_text_failsafe (az : Nat → Except PyStr AzureResult)
    (llm : Nat → Except PyStr LlmResult) (ue ho fl : Bool)
    (text target : PyStr) (source : Option PyStr) (r : TransResult)
    (hblank : pyStrip text ≠ [])
    (hres : (translate_text az llm ue ho fl text target source).result = some r)
    (hfail : r.success = false) :
    r.translation = text ∧ r.translation ≠ [] := by
  have htext : ¬(text = [] ∨ pyStrip text = []) := by
    rintro (h | h)
    · exact hblank (by rw [h]; rfl)
    · exact hblank h
  unfold translate_text at hres
  rw [if_neg htext] at hres
  have ht := translate_attempts_failsafe az llm ue ho fl text target source 3 0 r hres hfail
  refine ⟨ht, ?_⟩
  rw [ht]
  intro h
  exact hblank (by rw [h]; rfl)

/-- Witness for the amended C3: an always-raising backend on input `"a"`. -/
theorem translate_text_failsafe_witness :
    pyStrip (codes "a") ≠ [] ∧
    (translate_text azFail llmNone false false false (codes "a") (codes "en") none).result =
      some c3wRes ∧
    c3wRes.success = false ∧
    (c3wRes.translation = codes "a" ∧ c3wRes.translation ≠ []) :=
  ⟨by decide, by decide, rfl,
   translate_text_failsafe azFail llmNone false false false (codes "a") (codes "en")
     none c3wRes (by decide) (by decide) rfl⟩

/-- C4: the retry policy.  First conjunct: if the Azure backend raises on
attempts 0 and 1 and answers on attempt 2 without triggering the skip rule
(LLM disabled), the call returns the Azure result with `success=true`, the
backend is invoked exactly 3 times, and the two back-off sleeps are
`retry_delay * 2^0` and `retry_delay * 2^1`.  Second conjunct: if all three
attempts raise, the call returns (rather than propagates) a dictionary with
`success=false`, `method='failed'` and the original text as translation,
again after 3 backend calls and the same back-off sleeps. -/
theorem translate_text_retry_policy (azA azB : Nat → Except PyStr AzureResult)
    (llm : Nat → Except PyStr LlmResult) (text target : PyStr)
    (source : Option PyStr) (e0 e1 f0 f1 f2 : PyStr) (ares : AzureResult) :
    (pyStrip text ≠ [] → azA 0 = .error e0 → azA 1 = .error e1 → azA 2 = .ok ares →
      skip_check ares source target = false →
      translate_text azA llm false false false text target source =
        ⟨some (azureReturn ares target), 3, 0,
          [retry_delay * 2 ^ 0, retry_delay * 2 ^ 1]⟩) ∧
    (pyStrip text ≠ [] → azB 0 = .error f0 → azB 1 = .error f1 → azB 2 = .error f2 →
      translate_text azB llm false false false text target source =
        ⟨some { success := false
                error := some f2
                translation := text
                source_language := source
                target_language := some target
                method := some (codes "failed") }, 3, 0,
          [retry_delay * 2 ^ 0, retry_delay * 2 ^ 1]⟩) := by
  constructor
  · intro hblank h0 h1 h2 hskip
    have htext : ¬(text = [] ∨ pyStrip text = []) := by
      rintro (h | h)
      · exact hblank (by rw [h]; rfl)
      · exact hblank h
    unfold translate_text
    rw [if_neg htext]
    simp only [translate_attempts, tryAttempt, h0, h1, h2, hskip]
    rfl
  · intro hblank h0 h1 h2
    have htext : ¬(text = [] ∨ pyStrip text = []) := by
      rintro (h | h)
      · exact hblank (by rw [h]; rfl)
      · exact hblank h
    unfold translate_text
    rw [if_neg htext]
    simp only [translate_attempts, tryAttempt, h0, h1, h2]
    rfl

/-- Witness for C4: the flaky backend (fails twice, then answers detecting
`en` against target `es`) and the always-failing backend, on input `"hi"`. -/
theorem translate_text_retry_policy_witness :
    (pyStrip (codes "hi") ≠ [] ∧
      azFlaky 0 = .error (codes "boom") ∧ azFlaky 1 = .error (codes "boom") ∧
      azFlaky 2 = .ok { translated_text := some (codes "hola"),
                        detected_language := some (codes "en") } ∧
      skip_check { translated_text := some (codes "hola"),
                   detected_language := some (codes "en") } none (codes "es") = false ∧
      translate_text azFlaky llmNone false false false (codes "hi") (codes "es") none =
        ⟨some (azureReturn { translated_text := some (codes "hola"),
                             detected_language := some (codes "en") } (codes "es")),
          3, 0, [retry_delay * 2 ^ 0, retry_delay * 2 ^ 1]⟩) ∧
    (pyStrip (codes "hi") ≠ [] ∧
      azFail 0 = .error (codes "boom") ∧ azFail 1 = .error (codes "boom") ∧
      azFail 2 = .error (codes "boom") ∧
      translate_text azFail llmNone false false false (codes "hi") (codes "es") none =
        ⟨some { success := false
                error := some (codes "boom")
                translation := codes "hi"
                source_language := none
                target_language := some (codes "es")
                method := some (codes "failed") }, 3, 0,
          [retry_delay * 2 ^ 0, retry_delay * 2 ^ 1]⟩) :=
  ⟨⟨by decide, rfl, rfl, rfl, by decide,
    (translate_text_retry_policy azFlaky azFail llmNone (codes "hi") (codes "es") none
      (codes "boom") (codes "boom") (codes "boom") (codes "boom") (codes "boom")
      { translated_text := some (codes "hola"), detected_language := some (codes "en") }).1
      (by decide) rfl rfl rfl (by decide)⟩,
   ⟨by decide, rfl, rfl, rfl,
    (translate_text_retry_policy azFlaky azFail llmNone (codes "hi") (codes "es") none
      (codes "boom") (codes "boom") (codes "boom") (codes "boom") (codes "boom")
      { translated_text := some (codes "hola"), detected_language := some (codes "en") }).2
      (by decide) rfl rfl rfl⟩⟩

/-- Lowercasing a code point twice is the same as doing it once. -/
theorem lowerCode_idem (c : Nat) : lowerCode (lowerCode c) = lowerCode c := by
  unfold lowerCode
  split_ifs <;> omega

/-- `pyLower` is idempotent. -/
theorem pyLower_idem (x : PyStr) : pyLower (pyLower x) = pyLower x := by
  unfold pyLower
  rw [List.map_map]
  induction x with
  | nil => rfl
  | cons a t ih => simp only [List.map_cons, Function.comp_apply, lowerCode_idem, ih]

/-- Lowercasing never turns a non-whitespace code point into whitespace. -/
theorem isPySpace_lowerCode (c : Nat) (h : isPySpace c = false) :
    isPySpace (lowerCode c) = false := by
  unfold lowerCode
  split_ifs with h1
  · simp only [isPySpace, Bool.or_eq_false_iff, beq_eq_false_iff_ne, ne_eq]
    omega
  · exact h

/-- `dropWhile` with a predicate false on every element is the identity. -/
theorem dropWhile_all_false (p : Nat → Bool) (l : PyStr)
    (h : ∀ c ∈ l, p c = false) : l.dropWhile p = l := by
  cases l with
  | nil => rfl
  | cons a t => simp [List.dropWhile_cons, h a (by simp)]

/-- Stripping a whitespace-free string is the identity. -/
theorem pyStrip_all_no_space (l : PyStr) (h : ∀ c ∈ l, isPySpace c = false) :
    pyStrip l = l := by
  unfold pyStrip
  rw [dropWhile_all_false _ _ h]
  rw [dropWhile_all_false _ _ (fun c hc => h c (List.mem_reverse.mp hc))]
  exact List.reverse_reverse l

/-- Every element of a `takeWhile` satisfies the predicate. -/
theorem mem_takeWhile_sat {p : Nat → Bool} {l : PyStr} {c : Nat}
    (h : c ∈ l.takeWhile p) : p c = true := by
  induction l with
  | nil => simp at h
  | cons a t ih =>
    rw [List.takeWhile_cons] at h
    by_cases hp : p a
    · simp only [hp, if_true, List.mem_cons] at h
      cases h with
      | inl h => rw [h]; exact hp
      | inr h => exact ih h
    · simp [hp] at h

/-- Every element of a `takeWhile` is an element of the list. -/
theorem mem_takeWhile_mem {p : Nat → Bool} {l : PyStr} {c : Nat}
    (h : c ∈ l.takeWhile p) : c ∈ l := by
  induction l with
  | nil => simp at h
  | cons a t ih =>
    rw [List.takeWhile_cons] at h
    by_cases hp : p a
    · simp only [hp, if_true, List.mem_cons] at h
      cases h with
      | inl h => simp [h]
      | inr h => exact List.mem_cons_of_mem a (ih h)
    · simp [hp] at h

/-- The separator never occurs in the output of `cut_at`. -/
theorem cut_at_not_mem (sep : Nat) (l : PyStr) : sep ∉ cut_at sep l := by
  unfold cut_at
  split_ifs with h
  · intro hmem
    have := mem_takeWhile_sat hmem
    simp at this
  · exact h

/-- `cut_at` only keeps elements of its input. -/
theorem cut_at_subset {sep : Nat} {l : PyStr} {c : Nat} (h : c ∈ cut_at sep l) :
    c ∈ l := by
  unfold cut_at at h
  split_ifs at h
  · exact mem_takeWhile_mem h
  · exact h

/-- Mapping a function that fixes every element of a list is the identity. -/
theorem map_fixed (f : Nat → Nat) (l : PyStr) (h : ∀ c ∈ l, f c = c) :
    l.map f = l := by
  induction l with
  | nil => rfl
  | cons a t ih =>
    simp only [List.map_cons, h a (by simp)]
    rw [List.cons_inj_right]
    exact ih (fun c hc => h c (by simp [hc]))

/-- A string fixed by every normalization step is a fixed point of
`normalize_language_code`. -/
theorem normalize_fixed (z : PyStr)
    (hws : ∀ c ∈ z, isPySpace c = false)
    (hlow : ∀ c ∈ z, lowerCode c = c)
    (h45 : 45 ∉ z) (h95 : 95 ∉ z)
    (hin : z ≠ codes "in") (hiw : z ≠ codes "iw") (hji : z ≠ codes "ji") :
    normalize_language_code z = z := by
  by_cases hz : z = []
  · rw [hz]; rfl
  · unfold normalize_language_code
    rw [if_neg hz]
    have hlower : pyLower z = z := map_fixed lowerCode z hlow
    rw [hlower, pyStrip_all_no_space z hws]
    unfold cut_at
    rw [if_neg h45, if_neg h95]
    unfold lang_map
    rw [if_neg hin, if_neg hiw, if_neg hji]

/-- C8 (amended): `normalize_language_code` is idempotent on every input
free of whitespace; it is case-insensitive on every input (lowercasing the
input first never changes the result); and the concrete examples of the
claim hold: `zh-Hans`, `ZH_HANS` normalize to `zh` and `in` to `id`.  (On
inputs with interior whitespace before a `-`/`_` separator idempotence
fails; see the counterexample.) -/
theorem normalize_language_code_spec :
    (∀ x : PyStr, (∀ c ∈ x, isPySpace c = false) →
      normalize_language_code (normalize_language_code x) =
        normalize_language_code x) ∧
    (∀ x : PyStr, normalize_language_code (pyLower x) = normalize_language_code x) ∧
    normalize_language_code (codes "zh-Hans") = codes "zh" ∧
    normalize_language_code (codes "ZH_HANS") = codes "zh" ∧
    normalize_language_code (codes "in") = codes "id" := by
  refine ⟨?_, ?_, by decide, by decide, by decide⟩
  · intro x hws
    by_cases hx : x = []
    · rw [hx]; rfl
    · have hNx : normalize_language_code x =
          lang_map (cut_at 95 (cut_at 45 (pyStrip (pyLower x)))) := by
        unfold normalize_language_code
        rw [if_neg hx]
      have hl0ws : ∀ c ∈ pyLower x, isPySpace c = false := by
        intro c hc
        obtain ⟨a, ha, rfl⟩ := List.mem_map.mp hc
        exact isPySpace_lowerCode a (hws a ha)
      have hl0low : ∀ c ∈ pyLower x, lowerCode c = c := by
        intro c hc
        obtain ⟨a, _, rfl⟩ := List.mem_map.mp hc
        exact lowerCode_idem a
      rw [pyStrip_all_no_space _ hl0ws] at hNx
      set l2 := cut_at 95 (cut_at 45 (pyLower x)) with hl2
      have hl2ws : ∀ c ∈ l2, isPySpace c = false :=
        fun c hc => hl0ws c (cut_at_subset (cut_at_subset hc))
      have hl2low : ∀ c ∈ l2, lowerCode c = c :=
        fun c hc => hl0low c (cut_at_subset (cut_at_subset hc))
      have hl245 : 45 ∉ l2 := fun hm => cut_at_not_mem 45 _ (cut_at_subset hm)
      have hl295 : 95 ∉ l2 := cut_at_not_mem 95 _
      by_cases hin : l2 = codes "in"
      · rw [hNx]; unfold lang_map; rw [if_pos hin]; decide
      · by_cases hiw : l2 = codes "iw"
        · rw [hNx]
          unfold lang_map
          rw [if_neg hin, if_pos hiw]
          decide
        · by_cases hji : l2 = codes "ji"
          · rw [hNx]
            unfold lang_map
            rw [if_neg hin, if_neg hiw, if_pos hji]
            decide
          · have hmap : lang_map l2 = l2 := by
              unfold lang_map
              rw [if_neg hin, if_neg hiw, if_neg hji]
            rw [hNx, hmap]
            exact normalize_fixed l2 hl2ws hl2low hl245 hl295 hin hiw hji
  · intro x
    by_cases hx : x = []
    · rw [hx]; rfl
    · have hlx : pyLower x ≠ [] := by
        intro h
        exact hx (List.map_eq_nil_iff.mp h)
      unfold normalize_language_code
      rw [if_neg hx, if_neg hlx, pyLower_idem]

/-- Witness for C8: instantiating the universally quantified parts at
`"pt"` (whitespace-free) and at the mixed-case `"PT-br"`. -/
theorem normalize_language_code_spec_witness :
    (∀ c ∈ codes "pt", isPySpace c = false) ∧
    normalize_language_code (normalize_language_code (codes "pt")) =
      normalize_language_code (codes "pt") ∧
    normalize_language_code (pyLower (codes "PT-br")) =
      normalize_language_code (codes "PT-br") :=
  ⟨by decide, normalize_language_code_spec.1 (codes "pt") (by decide),
   normalize_language_code_spec.2.1 (codes "PT-br")⟩

/-- C8 counterexample: on `"en -us"` — whose stripped lowercase form keeps
an interior space before the `-` — normalization is not idempotent: one
application yields `"en "` (trailing space kept by the `-` cut), a second
application strips it to `"en"`. -/
theorem normalize_language_code_not_idempotent :
    normalize_language_code (normalize_language_code (codes "en -us")) ≠
      normalize_language_code (codes "en -us") := by decide

/-- C5: a line consisting of exactly the single Han character `中` (a CJK
code point, as the third conjunct records) is dropped by the parser —
`len(text) < 2` fires before the CJK whitelist ever runs — contradicting
the claim that such a line becomes a TextBlock. -/
theorem parse_ocr_single_cjk_dropped :
    parse_ocr_result [{ lines := [c5_line] }] = [] ∧
    (pyStrip c5_line.text).length = 1 ∧
    (pyStrip c5_line.text).any is_cjk_code = true := by decide

/-- C6: the Overlay Renderer never draws a block whose translated text
contains a refusal/apology fragment or is more than 5 times the original
length, and when every block is filtered out it reports `none` (the caller
keeps the original image bytes). -/
theorem translate_image_filters :
    (∀ (blocks : List TextBlock) (results : List TransResult) (d : DrawBlock),
      d ∈ (translate_image blocks results).getD [] →
        (∀ ind ∈ error_indicators, hasSub d.translated ind = false) ∧
        d.translated.length ≤ 5 * d.original.length) ∧
    (∀ (blocks : List TextBlock) (results : List TransResult),
      blocks_to_translate blocks results = [] →
        translate_image blocks results = none) := by
  have hmem : ∀ (blocks : List TextBlock) (results : List TransResult),
      ∀ b ∈ blocks_to_translate blocks results,
      (∀ ind ∈ error_indicators, hasSub b.translated ind = false) ∧
      b.translated.length ≤ 5 * b.original.length := by
    intro blocks results b hb
    unfold blocks_to_translate at hb
    obtain ⟨p, _, hfb⟩ := List.mem_filterMap.mp hb
    unfold filter_block at hfb
    dsimp only at hfb
    split_ifs at hfb with h1 h2 h3 h4
    injection hfb with hb'
    constructor
    · intro ind hind
      rw [← hb']
      by_contra hcontra
      have : error_indicators.any (fun i => hasSub p.2.translation i) = true :=
        List.any_eq_true.mpr ⟨ind, hind, by
          cases hval : hasSub p.2.translation ind
          · exact absurd hval hcontra
          · rfl⟩
      exact h3 this
    · rw [← hb']
      simp only []
      omega
  constructor
  · intro blocks results d hd
    unfold translate_image at hd
    by_cases h1 : blocks = []
    · rw [if_pos h1] at hd
      simp at hd
    · rw [if_neg h1] at hd
      by_cases h2 : blocks_to_translate blocks results = []
      · rw [if_pos h2] at hd
        simp at hd
      · rw [if_neg h2, Option.getD_some] at hd
        exact hmem blocks results d hd
  · intro blocks results h
    unfold translate_image
    by_cases h1 : blocks = []
    · rw [if_pos h1]
    · rw [if_neg h1, if_pos h]

/-- Witness for C6: one OCR block `Hello` translated successfully to
`Hola` is drawn, and the drawn block satisfies both filters; the
empty-filter branch is exercised on an empty input. -/
theorem translate_image_filters_witness :
    c6_drawn ∈ (translate_image [c6_block] [c6_result]).getD [] ∧
    ((∀ ind ∈ error_indicators, hasSub c6_drawn.translated ind = false) ∧
      c6_drawn.translated.length ≤ 5 * c6_drawn.original.length) ∧
    blocks_to_translate [c6_block] [⟨true, codes "Hola", none, none, none, none, true, none⟩] = [] ∧
    translate_image [c6_block] [⟨true, codes "Hola", none, none, none, none, true, none⟩] = none :=
  ⟨by decide,
   translate_image_filters.1 [c6_block] [c6_result] c6_drawn (by decide),
   by decide,
   translate_image_filters.2 [c6_block]
     [⟨true, codes "Hola", none, none, none, none, true, none⟩] (by decide)⟩

/-- C10: a picture whose raw bytes are shorter than 5000 is skipped: the
handler answers `False` with zero Overlay Renderer invocations, and the
`images_translated` counter is left unchanged. -/
theorem process_image_small_skip (image_bytes : List Nat)
    (rendered : Option (List Nat)) (stats : Nat)
    (h : image_bytes.length < 5000) :
    process_image image_bytes rendered = (false, 0) ∧
    bump_images_translated stats (process_image image_bytes rendered).1 = stats := by
  unfold process_image
  rw [if_pos h]
  exact ⟨rfl, rfl⟩

/-- Witness for C10 at a 3-byte image. -/
theorem process_image_small_skip_witness :
    ([1, 2, 3] : List Nat).length < 5000 ∧
    (process_image [1, 2, 3] (some [0]) = (false, 0) ∧
      bump_images_translated 7 (process_image [1, 2, 3] (some [0])).1 = 7) :=
  ⟨by decide, process_image_small_skip [1, 2, 3] (some [0]) 7 (by decide)⟩

/-- An sRGB channel value is never negative. -/
theorem srgb_channel_nonneg (v : Nat) : 0 ≤ srgb_channel v := by
  unfold srgb_channel
  dsimp only
  split_ifs with h
  · positivity
  · positivity

/-- Lower bound for a channel: for `v0 ≤ v` with `11 ≤ v0` (power branch)
and any `0 ≤ q` with `q^5 ≤ y0^2` for `y0 = ((v0/255)+0.055)/1.055`, the
channel value is at least `q * y0^2` (using `y^2.4 = y^2 * y^(2/5)` and
`y^(2/5) ≥ q`). -/
theorem srgb_channel_ge (v v0 : Nat) (q : ℝ) (hv : v0 ≤ v) (hv0 : 11 ≤ v0)
    (hq0 : 0 ≤ q)
    (hq : q ^ 5 ≤ (((v0 : ℝ) / 255 + 0.055) / 1.055) ^ 2) :
    q * (((v0 : ℝ) / 255 + 0.055) / 1.055) ^ 2 ≤ srgb_channel v := by
  set y0 : ℝ := ((v0 : ℝ) / 255 + 0.055) / 1.055 with hy0
  set y : ℝ := ((v : ℝ) / 255 + 0.055) / 1.055 with hy
  have hv0r : (11 : ℝ) ≤ (v0 : ℝ) := by exact_mod_cast hv0
  have hvr : (v0 : ℝ) ≤ (v : ℝ) := by exact_mod_cast hv
  have hy0pos : 0 < y0 := by rw [hy0]; positivity
  have hy0y : y0 ≤ y := by
    rw [hy0, hy]
    gcongr
  have hknee : ¬((v : ℝ) / 255 ≤ 0.03928) := by
    push_neg
    have h11 : (11 : ℝ) ≤ (v : ℝ) := by linarith
    nlinarith
  have hchan : srgb_channel v = y ^ (2.4 : ℝ) := by
    unfold srgb_channel
    dsimp only
    rw [if_neg hknee]
  rw [hchan]
  have hq04 : q ≤ y0 ^ ((0.4 : ℝ)) := by
    have h5 : q ^ (((5 : ℕ) : ℝ)) ≤ y0 ^ (((2 : ℕ) : ℝ)) := by
      rw [Real.rpow_natCast, Real.rpow_natCast]
      exact hq
    have h15 : (q ^ (((5 : ℕ) : ℝ))) ^ ((1 : ℝ) / 5) ≤
        (y0 ^ (((2 : ℕ) : ℝ))) ^ ((1 : ℝ) / 5) :=
      Real.rpow_le_rpow (Real.rpow_nonneg hq0 _) h5 (by norm_num)
    have hleft : (q ^ (((5 : ℕ) : ℝ))) ^ ((1 : ℝ) / 5) = q := by
      rw [← Real.rpow_mul hq0,
        show (((5 : ℕ) : ℝ) * ((1 : ℝ) / 5)) = 1 by norm_num, Real.rpow_one]
    have hright : (y0 ^ (((2 : ℕ) : ℝ))) ^ ((1 : ℝ) / 5) = y0 ^ ((0.4 : ℝ)) := by
      rw [← Real.rpow_mul (le_of_lt hy0pos),
        show (((2 : ℕ) : ℝ) * ((1 : ℝ) / 5)) = (0.4 : ℝ) by norm_num]
    rw [hleft, hright] at h15
    exact h15
  have hsplit : y0 ^ ((2.4 : ℝ)) = y0 ^ ((0.4 : ℝ)) * y0 ^ (2 : ℕ) := by
    have h := Real.rpow_add hy0pos 0.4 (((2 : ℕ) : ℝ))
    rw [Real.rpow_natCast y0 2] at h
    rw [← h]
    norm_num
  have hmono : y0 ^ ((2.4 : ℝ)) ≤ y ^ ((2.4 : ℝ)) :=
    Real.rpow_le_rpow (le_of_lt hy0pos) hy0y (by norm_num)
  have hstep : q * y0 ^ (2 : ℕ) ≤ y0 ^ ((0.4 : ℝ)) * y0 ^ (2 : ℕ) := by
    have hy2 : (0 : ℝ) ≤ y0 ^ (2 : ℕ) := by positivity
    exact mul_le_mul_of_nonneg_right hq04 hy2
  calc q * y0 ^ (2 : ℕ) ≤ y0 ^ ((0.4 : ℝ)) * y0 ^ (2 : ℕ) := hstep
    _ = y0 ^ ((2.4 : ℝ)) := (hsplit).symm
    _ ≤ y ^ ((2.4 : ℝ)) := hmono

/-- Channels at least 129 contribute at least 0.2176. -/
theorem srgb_channel_ge_129 (v : Nat) (h : 129 ≤ v) :
    (0.2176 : ℝ) ≤ srgb_channel v := by
  have hb := srgb_channel_ge v 129 0.77 h (by norm_num) (by norm_num) (by norm_num)
  have : (0.2176 : ℝ) ≤ 0.77 * (((129 : ℝ) / 255 + 0.055) / 1.055) ^ 2 := by norm_num
  linarith

/-- Channels at least 65 contribute at least 0.0526. -/
theorem srgb_channel_ge_65 (v : Nat) (h : 65 ≤ v) :
    (0.0526 : ℝ) ≤ srgb_channel v := by
  have hb := srgb_channel_ge v 65 0.61 h (by norm_num) (by norm_num) (by norm_num)
  have : (0.0526 : ℝ) ≤ 0.61 * (((65 : ℝ) / 255 + 0.055) / 1.055) ^ 2 := by norm_num
  linarith

/-- Any in-range background with channel sum at least 385 has luminance at
least 0.025 (so its contrast ratio against black is at least 1.5). -/
theorem luminance_lower (r g b : Nat) (hr : r ≤ 255) (hg : g ≤ 255)
    (hb : b ≤ 255) (hsum : 385 ≤ r + g + b) :
    (0.025 : ℝ) ≤ luminance (r, g, b) := by
  have hcases : (129 ≤ r ∧ 65 ≤ g) ∨ (129 ≤ r ∧ 65 ≤ b) ∨ (129 ≤ g ∧ 65 ≤ r) ∨
      (129 ≤ g ∧ 65 ≤ b) ∨ (129 ≤ b ∧ 65 ≤ r) ∨ (129 ≤ b ∧ 65 ≤ g) := by omega
  unfold luminance
  dsimp only
  have hnr := srgb_channel_nonneg r
  have hng := srgb_channel_nonneg g
  have hnb := srgb_channel_nonneg b
  rcases hcases with ⟨h1, h2⟩ | ⟨h1, h2⟩ | ⟨h1, h2⟩ | ⟨h1, h2⟩ | ⟨h1, h2⟩ | ⟨h1, h2⟩
  · have := srgb_channel_ge_129 r h1; have := srgb_channel_ge_65 g h2; linarith
  · have := srgb_channel_ge_129 r h1; have := srgb_channel_ge_65 b h2; linarith
  · have := srgb_channel_ge_129 g h1; have := srgb_channel_ge_65 r h2; linarith
  · have := srgb_channel_ge_129 g h1; have := srgb_channel_ge_65 b h2; linarith
  · have := srgb_channel_ge_129 b h1; have := srgb_channel_ge_65 r h2; linarith
  · have := srgb_channel_ge_129 b h1; have := srgb_channel_ge_65 g h2; linarith

/-- The luminance of pure black is zero. -/
theorem luminance_black : luminance (0, 0, 0) = 0 := by
  unfold luminance srgb_channel
  norm_num

/-- Luminance is never negative. -/
theorem luminance_nonneg (c : Nat × Nat × Nat) : 0 ≤ luminance c := by
  unfold luminance
  have h1 := srgb_channel_nonneg c.1
  have h2 := srgb_channel_nonneg c.2.1
  have h3 := srgb_channel_nonneg c.2.2
  positivity

/-- C7: for every in-range sampled background color whose WCAG contrast
ratio against black is below 1.5, the renderer's color decision picks pure
white `(255, 255, 255)` as the text color (such backgrounds always fall in
the dark branch, and the final safety check keeps white). -/
theorem sample_text_color_low_contrast_white (bg : Nat × Nat × Nat)
    (black_count dark_count white_count : Nat)
    (hr : bg.1 ≤ 255) (hg : bg.2.1 ≤ 255) (hb : bg.2.2 ≤ 255)
    (hc : calculate_contrast bg (0, 0, 0) < 1.5) :
    sample_text_color bg black_count dark_count white_count = (255, 255, 255) := by
  obtain ⟨r, g, b⟩ := bg
  dsimp only at hr hg hb
  have hL : luminance (r, g, b) < 0.025 := by
    unfold calculate_contrast at hc
    rw [luminance_black] at hc
    dsimp only at hc
    rw [max_eq_left (luminance_nonneg (r, g, b)),
        min_eq_right (luminance_nonneg (r, g, b))] at hc
    rw [div_lt_iff₀ (by norm_num : (0 : ℝ) < 0 + 0.05)] at hc
    linarith
  have hsum : r + g + b ≤ 384 := by
    by_contra hcon
    push_neg at hcon
    have := luminance_lower r g b hr hg hb (by omega)
    linarith
  have hbri : ¬(128 < (((r, g, b).1 + (r, g, b).2.1 + (r, g, b).2.2 : Nat) : ℝ) / 3) := by
    push_neg
    dsimp only
    rw [div_le_iff₀ (by norm_num : (0 : ℝ) < 3)]
    have : ((r + g + b : Nat) : ℝ) ≤ 384 := by exact_mod_cast hsum
    push_cast at this ⊢
    linarith
  unfold sample_text_color
  dsimp only
  simp only [if_neg hbri]
  split_ifs <;> rfl

/-- Every code point of a rendered decimal number is a digit. -/
theorem natToStrGo_digits (fuel : Nat) :
    ∀ n, n < fuel → ∀ c ∈ natToStrGo fuel n, 48 ≤ c ∧ c ≤ 57 := by
  induction fuel with
  | zero => intro n hn; omega
  | succ f ih =>
    intro n hn c hc
    unfold natToStrGo at hc
    split_ifs at hc with h10
    · simp only [List.mem_singleton] at hc
      omega
    · rw [List.mem_append] at hc
      cases hc with
      | inl hc =>
        have hdiv : n / 10 < n := Nat.div_lt_self (by omega) (by omega)
        exact ih (n / 10) (by omega) c hc
      | inr hc =>
        simp only [List.mem_singleton] at hc
        have : n % 10 < 10 := Nat.mod_lt n (by omega)
        omega

/-- The digit string of `n` is a digit string. -/
theorem natToStr_digits (n : Nat) : ∀ c ∈ natToStr n, 48 ≤ c ∧ c ≤ 57 :=
  natToStrGo_digits (n + 1) n (Nat.lt_succ_self n)

/-- `digitsVal` recovers the rendered number (fuel version). -/
theorem natToStrGo_val (fuel : Nat) :
    ∀ n, n < fuel → digitsVal (natToStrGo fuel n) = n := by
  induction fuel with
  | zero => intro n hn; omega
  | succ f ih =>
    intro n hn
    unfold natToStrGo
    split_ifs with h10
    · unfold digitsVal
      simp only [List.foldl_cons, List.foldl_nil]
      omega
    · unfold digitsVal
      rw [List.foldl_append]
      have hdiv : n / 10 < n := Nat.div_lt_self (by omega) (by omega)
      have hrec : digitsVal (natToStrGo f (n / 10)) = n / 10 := ih (n / 10) (by omega)
      unfold digitsVal at hrec
      rw [hrec]
      simp only [List.foldl_cons, List.foldl_nil]
      omega

/-- `digitsVal` recovers the rendered number. -/
theorem natToStr_val (n : Nat) : digitsVal (natToStr n) = n :=
  natToStrGo_val (n + 1) n (Nat.lt_succ_self n)

/-- Decimal rendering is injective. -/
theorem natToStr_inj {m n : Nat} (h : natToStr m = natToStr n) : m = n := by
  have := natToStr_val m
  rw [h, natToStr_val] at this
  omega

/-- A rendered decimal number is never the empty string. -/
theorem natToStr_ne_nil (n : Nat) : natToStr n ≠ [] := by
  unfold natToStr natToStrGo
  split_ifs <;> simp

/-- The underscore is not a digit, so it never occurs in `natToStr`. -/
theorem sep_not_mem_natToStr (n : Nat) : (95 : Nat) ∉ natToStr n := by
  intro h
  have := natToStr_digits n 95 h
  omega

/-- Splitting at a separator that occurs in neither prefix is unambiguous. -/
theorem append_sep_inj (sep : Nat) :
    ∀ (l1 l2 s t : PyStr), (∀ c ∈ l1, c ≠ sep) → (∀ c ∈ l2, c ≠ sep) →
      l1 ++ sep :: s = l2 ++ sep :: t → l1 = l2 ∧ s = t := by
  intro l1
  induction l1 with
  | nil =>
    intro l2 s t _ hl2 h
    cases l2 with
    | nil =>
      simp only [List.nil_append] at h
      injection h with _ h2
      exact ⟨rfl, h2⟩
    | cons c l2' =>
      simp only [List.nil_append, List.cons_append] at h
      injection h with h1 _
      exact absurd h1.symm (hl2 c (by simp))
  | cons c l1' ih =>
    intro l2 s t hl1 hl2 h
    cases l2 with
    | nil =>
      simp only [List.cons_append, List.nil_append] at h
      injection h with h1 _
      exact absurd h1 (hl1 c (by simp))
    | cons c2 l2' =>
      simp only [List.cons_append] at h
      injection h with h1 h2
      obtain ⟨ha, hb⟩ := ih l2' s t (fun x hx => hl1 x (by simp [hx]))
        (fun x hx => hl2 x (by simp [hx])) h2
      exact ⟨by rw [h1, ha], hb⟩

/-- Splitting `natToStr a ++ 95 :: s` is unambiguous. -/
theorem digits_sep_inj {a b : Nat} {s t : PyStr}
    (h : natToStr a ++ 95 :: s = natToStr b ++ 95 :: t) : a = b ∧ s = t := by
  obtain ⟨h1, h2⟩ := append_sep_inj 95 (natToStr a) (natToStr b) s t
    (fun c hc => by have := natToStr_digits a c hc; omega)
    (fun c hc => by have := natToStr_digits b c hc; omega) h
  exact ⟨natToStr_inj h1, h2⟩

/-- `frame_id` is injective in the slide index and the shape-index string. -/
theorem frame_id_inj {i i' : Nat} {x x' : PyStr}
    (h : frame_id i x = frame_id i' x') : i = i' ∧ x = x' := by
  unfold frame_id at h
  rw [List.append_assoc, List.append_assoc, List.append_assoc, List.append_assoc] at h
  have h2 := List.append_cancel_left h
  rw [show (codes "_shape_" : PyStr) ++ x = 95 :: (codes "shape_" ++ x) from rfl,
      show (codes "_shape_" : PyStr) ++ x' = 95 :: (codes "shape_" ++ x') from rfl] at h2
  obtain ⟨ha, hb⟩ := digits_sep_inj h2
  exact ⟨ha, List.append_cancel_left hb⟩

/-- A bare decimal shape index never equals a group-suffixed one. -/
theorem suffix_top_ne_grp (j j' k' : Nat) :
    (natToStr j : PyStr) ≠ natToStr j' ++ codes "_group_" ++ natToStr k' := by
  intro h
  have hmem : (95 : Nat) ∈ (natToStr j' ++ codes "_group_" ++ natToStr k' : PyStr) := by
    rw [List.append_assoc]
    exact List.mem_append_right _ (List.mem_append_left _ (by decide))
  rw [← h] at hmem
  exact sep_not_mem_natToStr j hmem

/-- Group-suffixed shape indices are injective in both indices. -/
theorem suffix_grp_inj {j k j' k' : Nat}
    (h : (natToStr j : PyStr) ++ codes "_group_" ++ natToStr k =
      natToStr j' ++ codes "_group_" ++ natToStr k') : j = j' ∧ k = k' := by
  rw [List.append_assoc, List.append_assoc] at h
  rw [show (codes "_group_" : PyStr) ++ natToStr k = 95 :: (codes "group_" ++ natToStr k) from rfl,
      show (codes "_group_" : PyStr) ++ natToStr k' = 95 :: (codes "group_" ++ natToStr k') from rfl] at h
  obtain ⟨ha, hb⟩ := digits_sep_inj h
  exact ⟨ha, natToStr_inj (List.append_cancel_left hb)⟩

/-- Two identifications of one key agree on slide and shape index. -/
theorem keyOf_inj {i i' j j' : Nat} {key : PyStr}
    (h1 : keyOf i j key) (h2 : keyOf i' j' key) : i = i' ∧ j = j' := by
  cases h1 with
  | inl h1 =>
    cases h2 with
    | inl h2 =>
      rw [h1] at h2
      obtain ⟨ha, hb⟩ := frame_id_inj h2
      exact ⟨ha, natToStr_inj hb⟩
    | inr h2 =>
      obtain ⟨k, hk⟩ := h2
      rw [h1] at hk
      obtain ⟨_, hb⟩ := frame_id_inj hk
      exact absurd hb (suffix_top_ne_grp j j' k)
  | inr h1 =>
    obtain ⟨k, hk⟩ := h1
    cases h2 with
    | inl h2 =>
      rw [hk] at h2
      obtain ⟨_, hb⟩ := frame_id_inj h2
      exact absurd hb.symm (suffix_top_ne_grp j' j k)
    | inr h2 =>
      obtain ⟨k', hk'⟩ := h2
      rw [hk] at hk'
      obtain ⟨ha, hb⟩ := frame_id_inj hk'
      exact ⟨ha, (suffix_grp_inj hb).1⟩

/-- The keys a text frame contributes: at most its own `frame_id`. -/
theorem textFrameEntry_keys (si : Nat) (idx t : PyStr) :
    ∀ key ∈ (textFrameEntry si idx t).map Prod.fst, key = frame_id si idx := by
  intro key hk
  unfold textFrameEntry at hk
  dsimp only at hk
  split_ifs at hk
  · simp at hk
  · simp only [List.map_cons, List.map_nil, List.mem_singleton] at hk
    exact hk

/-- A text frame contributes no duplicate keys. -/
theorem textFrameEntry_keys_nodup (si : Nat) (idx t : PyStr) :
    ((textFrameEntry si idx t).map Prod.fst).Nodup := by
  unfold textFrameEntry
  dsimp only
  split_ifs <;> simp

/-- Inside a group without nested groups, every ledger key is the parent's
identifier extended with one `_group_<k>` suffix, `k` at least the running
nested index. -/
theorem groupLedger_flat_keys (si : Nat) (parent : PyStr) :
    ∀ (g : List PShape) (k0 : Nat), (∀ s ∈ g, isGroupShape s = false) →
      ∀ key ∈ (groupLedger si parent g k0).map Prod.fst,
        ∃ k, k0 ≤ k ∧ key = frame_id si (parent ++ codes "_group_" ++ natToStr k) := by
  intro g
  induction g with
  | nil =>
    intro k0 _ key hk
    simp [groupLedger] at hk
  | cons s rest ih =>
    intro k0 hflat key hk
    cases s with
    | group g2 =>
      have h1 := hflat (.group g2) (by simp)
      simp [isGroupShape] at h1
    | textFrame t =>
      simp only [groupLedger, List.map_append, List.mem_append] at hk
      cases hk with
      | inl hk =>
        exact ⟨k0, le_refl k0,
          textFrameEntry_keys si (parent ++ codes "_group_" ++ natToStr k0) t key hk⟩
      | inr hk =>
        obtain ⟨k, hk1, hk2⟩ := ih (k0 + 1) (fun x hx => hflat x (by simp [hx])) key hk
        exact ⟨k, by omega, hk2⟩
    | picture b =>
      simp only [groupLedger, List.map_append, List.mem_append] at hk
      cases hk with
      | inl hk => simp at hk
      | inr hk =>
        obtain ⟨k, hk1, hk2⟩ := ih (k0 + 1) (fun x hx => hflat x (by simp [hx])) key hk
        exact ⟨k, by omega, hk2⟩
    | table c =>
      simp only [groupLedger, List.map_append, List.mem_append] at hk
      cases hk with
      | inl hk => simp at hk
      | inr hk =>
        obtain ⟨k, hk1, hk2⟩ := ih (k0 + 1) (fun x hx => hflat x (by simp [hx])) key hk
        exact ⟨k, by omega, hk2⟩

/-- Inside a group without nested groups, the contributed ledger keys are
pairwise distinct. -/
theorem groupLedger_flat_nodup (si : Nat) (parent : PyStr) :
    ∀ (g : List PShape) (k0 : Nat), (∀ s ∈ g, isGroupShape s = false) →
      ((groupLedger si parent g k0).map Prod.fst).Nodup := by
  intro g
  induction g with
  | nil =>
    intro k0 _
    simp [groupLedger]
  | cons s rest ih =>
    intro k0 hflat
    have htail : ((groupLedger si parent rest (k0 + 1)).map Prod.fst).Nodup :=
      ih (k0 + 1) (fun x hx => hflat x (by simp [hx]))
    cases s with
    | group g2 =>
      have h1 := hflat (.group g2) (by simp)
      simp [isGroupShape] at h1
    | textFrame t =>
      simp only [groupLedger, List.map_append]
      apply List.Nodup.append
      · exact textFrameEntry_keys_nodup si (parent ++ codes "_group_" ++ natToStr k0) t
      · exact htail
      · intro key hk1 hk2
        have he1 := textFrameEntry_keys si (parent ++ codes "_group_" ++ natToStr k0) t key hk1
        obtain ⟨k, hk, he2⟩ := groupLedger_flat_keys si parent rest (k0 + 1)
          (fun x hx => hflat x (by simp [hx])) key hk2
        rw [he1] at he2
        have hx := (frame_id_inj he2).2
        have := natToStr_inj (List.append_cancel_left hx)
        omega
    | picture b =>
      simp only [groupLedger, List.map_append, List.nil_append, List.map_nil]
      exact htail
    | table c =>
      simp only [groupLedger, List.map_append, List.nil_append, List.map_nil]
      exact htail

/-- On a slide whose groups have no nested groups, every ledger key is
`slide_<si>_shape_<j>`, possibly with one `_group_<k>` suffix, `j` at least
the running shape index. -/
theorem slideLedger_flat_keys (si : Nat) :
    ∀ (shapes : List PShape) (j0 : Nat), (∀ s ∈ shapes, flatShape s = true) →
      ∀ key ∈ (slideLedger si shapes j0).map Prod.fst,
        ∃ j, j0 ≤ j ∧ keyOf si j key := by
  intro shapes
  induction shapes with
  | nil =>
    intro j0 _ key hk
    simp [slideLedger] at hk
  | cons s rest ih =>
    intro j0 hflat key hk
    have htail : ∀ key ∈ (slideLedger si rest (j0 + 1)).map Prod.fst,
        ∃ j, j0 ≤ j ∧ keyOf si j key := by
      intro k hkm
      obtain ⟨j, hj1, hj2⟩ := ih (j0 + 1) (fun x hx => hflat x (by simp [hx])) k hkm
      exact ⟨j, by omega, hj2⟩
    cases s with
    | group g2 =>
      simp only [slideLedger, List.map_append, List.mem_append] at hk
      cases hk with
      | inl hk =>
        have hchild : ∀ x ∈ g2, isGroupShape x = false := by
          have h1 := hflat (.group g2) (by simp)
          simp only [flatShape, List.all_eq_true] at h1
          intro x hx
          have := h1 x hx
          simp only [Bool.not_eq_true'] at this
          exact this
        obtain ⟨k, _, he⟩ := groupLedger_flat_keys si (natToStr j0) g2 0 hchild key hk
        exact ⟨j0, le_refl j0, Or.inr ⟨k, he⟩⟩
      | inr hk => exact htail key hk
    | textFrame t =>
      simp only [slideLedger, List.map_append, List.mem_append] at hk
      cases hk with
      | inl hk =>
        exact ⟨j0, le_refl j0, Or.inl (textFrameEntry_keys si (natToStr j0) t key hk)⟩
      | inr hk => exact htail key hk
    | picture b =>
      simp only [slideLedger, List.map_append, List.mem_append] at hk
      cases hk with
      | inl hk => simp at hk
      | inr hk => exact htail key hk
    | table c =>
      simp only [slideLedger, List.map_append, List.mem_append] at hk
      cases hk with
      | inl hk => simp at hk
      | inr hk => exact htail key hk

/-- On a slide whose groups have no nested groups, the ledger keys are
pairwise distinct. -/
theorem slideLedger_flat_nodup (si : Nat) :
    ∀ (shapes : List PShape) (j0 : Nat), (∀ s ∈ shapes, flatShape s = true) →
      ((slideLedger si shapes j0).map Prod.fst).Nodup := by
  intro shapes
  induction shapes with
  | nil =>
    intro j0 _
    simp [slideLedger]
  | cons s rest ih =>
    intro j0 hflat
    have htail : ((slideLedger si rest (j0 + 1)).map Prod.fst).Nodup :=
      ih (j0 + 1) (fun x hx => hflat x (by simp [hx]))
    have hdisj : ∀ key, keyOf si j0 key →
        key ∈ (slideLedger si rest (j0 + 1)).map Prod.fst → False := by
      intro key hko hk2
      obtain ⟨j, hj1, hj2⟩ := slideLedger_flat_keys si rest (j0 + 1)
        (fun x hx => hflat x (by simp [hx])) key hk2
      have := (keyOf_inj hko hj2).2
      omega
    cases s with
    | group g2 =>
      have hchild : ∀ x ∈ g2, isGroupShape x = false := by
        have h1 := hflat (.group g2) (by simp)
        simp only [flatShape, List.all_eq_true] at h1
        intro x hx
        have := h1 x hx
        simp only [Bool.not_eq_true'] at this
        exact this
      simp only [slideLedger, List.map_append]
      apply List.Nodup.append
      · exact groupLedger_flat_nodup si (natToStr j0) g2 0 hchild
      · exact htail
      · intro key hk1 hk2
        obtain ⟨k, _, he⟩ := groupLedger_flat_keys si (natToStr j0) g2 0 hchild key hk1
        exact hdisj key (Or.inr ⟨k, he⟩) hk2
    | textFrame t =>
      simp only [slideLedger, List.map_append]
      apply List.Nodup.append
      · exact textFrameEntry_keys_nodup si (natToStr j0) t
      · exact htail
      · intro key hk1 hk2
        have he := textFrameEntry_keys si (natToStr j0) t key hk1
        exact hdisj key (Or.inl he) hk2
    | picture b =>
      simp only [slideLedger, List.map_append, List.nil_append, List.map_nil]
      exact htail
    | table c =>
      simp only [slideLedger, List.map_append, List.nil_append, List.map_nil]
      exact htail

/-- Over a flat document every ledger key identifies a slide at least the
running slide index. -/
theorem docLedgerGo_keys :
    ∀ (slides : List (List PShape)) (i0 : Nat),
      (∀ sl ∈ slides, ∀ s ∈ sl, flatShape s = true) →
      ∀ key ∈ (docLedgerGo slides i0).map Prod.fst,
        ∃ i, i0 ≤ i ∧ ∃ j, keyOf i j key := by
  intro slides
  induction slides with
  | nil =>
    intro i0 _ key hk
    simp [docLedgerGo] at hk
  | cons sl rest ih =>
    intro i0 hflat key hk
    simp only [docLedgerGo, List.map_append, List.mem_append] at hk
    cases hk with
    | inl hk =>
      obtain ⟨j, _, hj⟩ := slideLedger_flat_keys i0 sl 0
        (fun x hx => hflat sl (by simp) x hx) key hk
      exact ⟨i0, le_refl i0, j, hj⟩
    | inr hk =>
      obtain ⟨i, hi1, hi2⟩ := ih (i0 + 1)
        (fun s hs x hx => hflat s (by simp [hs]) x hx) key hk
      exact ⟨i, by omega, hi2⟩

/-- Over a flat document the ledger keys are pairwise distinct. -/
theorem docLedgerGo_nodup :
    ∀ (slides : List (List PShape)) (i0 : Nat),
      (∀ sl ∈ slides, ∀ s ∈ sl, flatShape s = true) →
      ((docLedgerGo slides i0).map Prod.fst).Nodup := by
  intro slides
  induction slides with
  | nil =>
    intro i0 _
    simp [docLedgerGo]
  | cons sl rest ih =>
    intro i0 hflat
    simp only [docLedgerGo, List.map_append]
    apply List.Nodup.append
    · exact slideLedger_flat_nodup i0 sl 0 (fun x hx => hflat sl (by simp) x hx)
    · exact ih (i0 + 1) (fun s hs x hx => hflat s (by simp [hs]) x hx)
    · intro key hk1 hk2
      obtain ⟨j, _, hj⟩ := slideLedger_flat_keys i0 sl 0
        (fun x hx => hflat sl (by simp) x hx) key hk1
      obtain ⟨i, hi1, j', hj'⟩ := docLedgerGo_keys rest (i0 + 1)
        (fun s hs x hx => hflat s (by simp [hs]) x hx) key hk2
      have := (keyOf_inj hj hj').1
      omega

/-- C1 (amended): on documents whose groups contain no nested groups, the
walker's ledger key assignment is collision-free and deterministic: every
key has the form `slide_<i>_shape_<j>`, extended with a single
`_group_<k>` suffix for shapes inside a group, no two processed shapes
receive the same key, and the key list is a pure function of the document
(so two runs on the same document agree).  (For nested groups the code
reuses the outermost parent index instead of chaining one suffix per
level, and distinct shapes can collide; see the counterexample.) -/
theorem ledger_keys_spec (slides : List (List PShape))
    (hflat : ∀ sl ∈ slides, ∀ s ∈ sl, flatShape s = true) :
    (ledgerKeys slides).Nodup ∧
    (∀ key ∈ ledgerKeys slides,
      (∃ i j, key = K_top i j) ∨ (∃ i j k, key = K_grp i j k)) ∧
    ledgerKeys slides = ledgerKeys slides := by
  refine ⟨docLedgerGo_nodup slides 0 hflat, ?_, rfl⟩
  intro key hk
  obtain ⟨i, _, j, hj⟩ := docLedgerGo_keys slides 0 hflat key hk
  cases hj with
  | inl h => exact Or.inl ⟨i, j, h⟩
  | inr h =>
    obtain ⟨k, hk'⟩ := h
    exact Or.inr ⟨i, j, k, hk'⟩

/-- Witness for C1 on a concrete flat two-slide document. -/
theorem ledger_keys_spec_witness :
    (∀ sl ∈ c1_flat_doc, ∀ s ∈ sl, flatShape s = true) ∧
    ((ledgerKeys c1_flat_doc).Nodup ∧
      (∀ key ∈ ledgerKeys c1_flat_doc,
        (∃ i j, key = K_top i j) ∨ (∃ i j k, key = K_grp i j k)) ∧
      ledgerKeys c1_flat_doc = ledgerKeys c1_flat_doc) :=
  ⟨by decide, ledger_keys_spec c1_flat_doc (by decide)⟩

/-- C1 counterexample: in `c1_doc` the group at shape index 0 holds a text
frame at nested index 0 and a nested group whose text frame also sits at
nested index 0; the nested-group recursion keeps `parent_shape_idx`
unchanged, so both shapes get the identifier `slide_0_shape_0_group_0` and
the ledger key list has a duplicate. -/
theorem ledger_keys_collision :
    ledgerKeys c1_doc =
      [codes "slide_0_shape_0_group_0", codes "slide_0_shape_0_group_0"] ∧
    ¬ (ledgerKeys c1_doc).Nodup := by
  have h : ledgerKeys c1_doc =
      [codes "slide_0_shape_0_group_0", codes "slide_0_shape_0_group_0"] := by
    simp only [ledgerKeys, docLedger, docLedgerGo, slideLedger, groupLedger, c1_doc]
    decide
  refine ⟨h, ?_⟩
  rw [h]
  decide

/-- Witness for C7 at the pure-black background, whose contrast against
black is 1 < 1.5. -/
theorem sample_text_color_low_contrast_white_witness :
    ((0, 0, 0) : Nat × Nat × Nat).1 ≤ 255 ∧
    calculate_contrast (0, 0, 0) (0, 0, 0) < 1.5 ∧
    sample_text_color (0, 0, 0) 0 0 0 = (255, 255, 255) :=
  ⟨by decide,
   by
    unfold calculate_contrast
    rw [luminance_black]
    norm_num,
   sample_text_color_low_contrast_white (0, 0, 0) 0 0 0 (by decide) (by decide)
     (by decide)
     (by
      unfold calculate_contrast
      rw [luminance_black]
      norm_num)⟩

end DocTrans
